import Mathlib

/-!
Verification development for the opnet-ordinals-plugin repository.

The TypeScript sources are shallowly embedded as Lean definitions:
byte buffers become `List Nat` (each entry a byte value), database tables
become lists of rows, and effectful methods become explicit state-passing
functions.  Wall-clock reads (`Date.now()`) become an explicit `now`
parameter, and external collaborators (RPC block source, contract
transport, bech32 library) become function parameters of the model.
-/

namespace OrdinalsPlugin

/-- Parsed inscription envelope, mirroring the `InscriptionEnvelope` record
produced by `OrdinalsParser.parsePayloads` (src parser, part_007).
Strings are modelled as UTF-8 byte sequences. -/
structure InscriptionEnvelope where
  content : List Nat
  contentType : List Nat
  pointer : Option (List Nat)
  parent : Option (List Nat)
  metadata : Option (List Nat)
  metaprotocol : Option (List Nat)
  contentEncoding : Option (List Nat)
  delegate : Option (List Nat)
deriving Repr, DecidableEq

namespace OrdinalsParser

/-- Embedding of `OrdinalsParser.readPush` (part_007 lines 89-145).
The source addresses the script by offset; here the script suffix from the
current offset is consumed from the front, returning the pushed data and
the remaining bytes after the push, or `none` when the byte is not a push
opcode or the claimed length overruns the script end. -/
def readPush : List Nat → Option (List Nat × List Nat)
  | [] => none
  | op :: rest =>
    if op = 0x00 then some ([], rest)
    else if 1 ≤ op ∧ op ≤ 0x4b then
      if rest.length < op then none
      else some (rest.take op, rest.drop op)
    else if op = 0x4c then
      match rest with
      | [] => none
      | l :: r2 => if r2.length < l then none else some (r2.take l, r2.drop l)
    else if op = 0x4d then
      match rest with
      | b0 :: b1 :: r2 =>
        let l := b0 + 256 * b1
        if r2.length < l then none else some (r2.take l, r2.drop l)
      | _ => none
    else if op = 0x4e then
      match rest with
      | b0 :: b1 :: b2 :: b3 :: r2 =>
        let l := b0 + 256 * b1 + 65536 * b2 + 16777216 * b3
        if r2.length < l then none else some (r2.take l, r2.drop l)
      | _ => none
    else if op = 0x4f then some ([0x81], rest)
    else if 0x51 ≤ op ∧ op ≤ 0x60 then some ([op - 0x50], rest)
    else none

/-- Every successful `readPush` consumes at least the opcode byte. -/
theorem readPush_shrinks (s d r) (h : readPush s = some (d, r)) :
    r.length < s.length := by
  match s with
  | [] => simp [readPush] at h
  | op :: rest =>
    simp only [readPush] at h
    split at h
    · cases h; simp
    · split at h
      · split at h
        · cases h
        · cases h; simp [List.length_drop]; omega
      · split at h
        · match rest with
          | [] => cases h
          | l :: r2 =>
            simp only at h
            split at h
            · cases h
            · cases h; simp [List.length_drop]; omega
        · split at h
          · match rest with
            | [] => cases h
            | [b0] => cases h
            | b0 :: b1 :: r2 =>
              simp only at h
              split at h
              · cases h
              · cases h; simp [List.length_drop]; omega
          · split at h
            · match rest with
              | [] => cases h
              | [b0] => cases h
              | [b0, b1] => cases h
              | [b0, b1, b2] => cases h
              | b0 :: b1 :: b2 :: b3 :: r2 =>
                simp only at h
                split at h
                · cases h
                · cases h; simp [List.length_drop]; omega
            · split at h
              · cases h; simp
              · split at h
                · cases h; simp
                · cases h

/-- Embedding of the payload-collection loop of
`OrdinalsParser.extractEnvelope` (part_007 lines 181-195): collect push
payloads until `OP_ENDIF` (0x68), the script end, or a non-push byte. -/
def collectPayloads : List Nat → List (List Nat)
  | [] => []
  | b :: t =>
    if b = 0x68 then []
    else
      match h : readPush (b :: t) with
      | none => []
      | some (d, r) => d :: collectPayloads r
termination_by s => s.length
decreasing_by
  exact readPush_shrinks _ _ _ h

/-- Mutable field state of `OrdinalsParser.parsePayloads`
(part_007 lines 216-224). -/
structure FieldState where
  contentType : List Nat := []
  pointer : Option (List Nat) := none
  parent : Option (List Nat) := none
  metadataChunks : Option (List (List Nat)) := none
  metaprotocol : Option (List Nat) := none
  contentEncoding : Option (List Nat) := none
  delegate : Option (List Nat) := none
deriving Repr, DecidableEq

/-- Embedding of the `switch (tag)` body of `OrdinalsParser.parsePayloads`
(part_007 lines 251-290). -/
def applyTag (st : FieldState) (tag : Nat) (value : List Nat) : FieldState :=
  if tag = 1 then
    if st.contentType = [] then { st with contentType := value } else st
  else if tag = 2 then
    if st.pointer = none then { st with pointer := some value } else st
  else if tag = 3 then
    if st.parent = none then { st with parent := some value } else st
  else if tag = 5 then
    { st with metadataChunks := some (st.metadataChunks.getD [] ++ [value]) }
  else if tag = 7 then
    if st.metaprotocol = none then { st with metaprotocol := some value } else st
  else if tag = 9 then
    if st.contentEncoding = none then { st with contentEncoding := some value } else st
  else if tag = 11 then
    if st.delegate = none then { st with delegate := some value } else st
  else st

/-- Embedding of the tag/value walking loop of
`OrdinalsParser.parsePayloads` (part_007 lines 227-291): payloads are
consumed two at a time; an empty payload at an even index starts the body
(the remaining payloads are returned), a tag payload that is not exactly
one byte skips that pair, and a tag with no following value stops. -/
def parseFields (st : FieldState) : List (List Nat) → FieldState × Option (List (List Nat))
  | [] => (st, none)
  | tag :: rest =>
    if tag = [] then (st, some rest)
    else if tag.length ≠ 1 then
      match rest with
      | [] => (st, none)
      | _ :: r2 => parseFields st r2
    else
      match rest with
      | [] => (st, none)
      | v :: r2 => parseFields (applyTag st (tag.headD 0) v) r2

/-- Embedding of `OrdinalsParser.parsePayloads` (part_007 lines 215-321):
walk the tag/value pairs, concatenate the body chunks, and reject the
envelope only when neither a content type nor a body is present. -/
def parsePayloads (payloads : List (List Nat)) : Option InscriptionEnvelope :=
  let res := parseFields {} payloads
  let content := (res.2.getD []).flatten
  if res.1.contentType = [] ∧ content = [] then none
  else
    some { content := content
           contentType := res.1.contentType
           pointer := res.1.pointer
           parent := res.1.parent
           metadata := res.1.metadataChunks.map List.flatten
           metaprotocol := res.1.metaprotocol
           contentEncoding := res.1.contentEncoding
           delegate := res.1.delegate }

/-- Embedding of `OrdinalsParser.extractEnvelope` (part_007 lines 154-206).
The outer scan looks for `OP_FALSE OP_IF`; on a match the next push must be
the three bytes of the protocol marker, in which case the payloads are
collected and parsed (the scan does not resume after a matched marker,
whatever `parsePayloads` returns); otherwise the scan resumes. -/
def extractEnvelope : List Nat → Option InscriptionEnvelope
  | [] => none
  | [_] => none
  | b0 :: b1 :: rest =>
    if b0 = 0x00 ∧ b1 = 0x63 then
      match readPush rest with
      | some (d, r2) =>
        if d = [111, 114, 100] then parsePayloads (collectPayloads r2)
        else extractEnvelope rest
      | none => extractEnvelope rest
    else extractEnvelope (b1 :: rest)
termination_by s => s.length
decreasing_by
  all_goals (simp; try omega)

/-- Embedding of `OrdinalsParser.parseInscription` (part_007 lines 61-69):
return the envelope of the first witness item whose extraction succeeds. -/
def parseInscription : List (List Nat) → Option InscriptionEnvelope
  | [] => none
  | w :: ws =>
    match extractEnvelope w with
    | some e => some e
    | none => parseInscription ws

end OrdinalsParser

/-- Encoding of one data push with a PUSHBYTES opcode: the opcode byte is
the payload length (0x00 pushes empty bytes).  Valid for payloads of at
most 75 bytes, the PUSHBYTES range. -/
def pushB (b : List Nat) : List Nat := b.length :: b

/-- Concatenated PUSHBYTES encodings of a payload list. -/
def encodePushes (ps : List (List Nat)) : List Nat := (ps.map pushB).flatten

/-- Payload sequence of a list of tag/value pairs: tag byte push then
value push, in order. -/
def pairPayloads (extras : List (Nat × List Nat)) : List (List Nat) :=
  (extras.map (fun tv => [[tv.1], tv.2])).flatten

/-- Canonical inscription envelope for a content type, extra tag/value
pairs, and a chunked body: OP_FALSE OP_IF, push of the protocol marker,
content-type tag pair, extra tag pairs, empty-push body separator, body
chunks, OP_ENDIF — all data pushes with PUSHBYTES opcodes. -/
def buildCanonicalEnvelope (ct : List Nat) (extras : List (Nat × List Nat))
    (bodyChunks : List (List Nat)) : List Nat :=
  [0x00, 0x63] ++
    encodePushes ([111, 114, 100] :: [1] :: ct :: (pairPayloads extras ++ [[]] ++ bodyChunks)) ++
    [0x68]

namespace OrdinalsParser

/-- Reading a PUSHBYTES-encoded payload of at most 75 bytes yields that
payload and leaves the following bytes untouched. -/
theorem readPush_pushB (p t : List Nat) (hp : p.length ≤ 75) :
    readPush (pushB p ++ t) = some (p, t) := by
  match p with
  | [] => simp [pushB, readPush]
  | a :: q =>
    show readPush ((a :: q).length :: (a :: q ++ t)) = _
    simp only [readPush]
    have h1 : 1 ≤ (a :: q).length := by simp
    have h2 : (a :: q).length ≤ 0x4b := hp
    have hne : ¬ ((a :: q).length = 0) := by simp
    have hlen : ¬ ((a :: q ++ t).length < (a :: q).length) := by
      simp [List.length_append]
    simp only [hne, if_false, h1, h2, and_self, if_true, hlen]
    rw [List.take_left, List.drop_left]

/-- Collecting payloads over a PUSHBYTES-encoded region consumes exactly
those payloads and continues into the following bytes. -/
theorem collectPayloads_encode (ps : List (List Nat)) (suffix : List Nat)
    (hps : ∀ p ∈ ps, p.length ≤ 75) :
    collectPayloads (encodePushes ps ++ suffix) = ps ++ collectPayloads suffix := by
  induction ps with
  | nil => simp [encodePushes]
  | cons p rest ih =>
    have hp : p.length ≤ 75 := hps p (by simp)
    have hrest : ∀ q ∈ rest, q.length ≤ 75 := fun q hq => hps q (by simp [hq])
    have henc : encodePushes (p :: rest) ++ suffix =
        p.length :: (p ++ (encodePushes rest ++ suffix)) := by
      simp [encodePushes, pushB]
    rw [henc]
    have hb : ¬ (p.length = 0x68) := by omega
    have hread : readPush (p.length :: (p ++ (encodePushes rest ++ suffix))) =
        some (p, encodePushes rest ++ suffix) := by
      have := readPush_pushB p (encodePushes rest ++ suffix) hp
      simpa [pushB] using this
    rw [collectPayloads.eq_def]
    simp only [hb, if_false]
    split
    · next heq =>
      rw [hread] at heq
      cases heq
    · next d r heq =>
      rw [hread] at heq
      simp only [Option.some.injEq, Prod.mk.injEq] at heq
      obtain ⟨h1, h2⟩ := heq
      subst h1
      subst h2
      rw [ih hrest]
      simp

/-- Extracting from a script that opens with OP_FALSE OP_IF and the
protocol-marker push parses the payloads collected from the remaining
bytes. -/
theorem extractEnvelope_canonical (body : List Nat) :
    extractEnvelope ([0x00, 0x63] ++ pushB [111, 114, 100] ++ body) =
      parsePayloads (collectPayloads body) := by
  show extractEnvelope (0x00 :: 0x63 :: (pushB [111, 114, 100] ++ body)) = _
  rw [extractEnvelope]
  have hread : readPush (pushB [111, 114, 100] ++ body) = some ([111, 114, 100], body) :=
    readPush_pushB _ _ (by simp)
  simp [hread]

/-- Walking an encoded tag/value pair applies the tag once and continues. -/
theorem parseFields_pair (st : FieldState) (t : Nat) (v : List Nat)
    (rest : List (List Nat)) :
    parseFields st ([t] :: v :: rest) = parseFields (applyTag st t v) rest := by
  rw [parseFields.eq_def]
  simp

/-- Walking the payloads of a pair list followed by the body separator
folds the tags over the state and returns the body chunks. -/
theorem parseFields_pairs (extras : List (Nat × List Nat)) (st : FieldState)
    (bodyChunks : List (List Nat)) :
    parseFields st (pairPayloads extras ++ ([] :: bodyChunks)) =
      (extras.foldl (fun s tv => applyTag s tv.1 tv.2) st, some bodyChunks) := by
  induction extras generalizing st with
  | nil =>
    show parseFields st ([] :: bodyChunks) = (st, some bodyChunks)
    rw [parseFields.eq_def]
    simp
  | cons tv rest ih =>
    have hflat : pairPayloads (tv :: rest) ++ ([] :: bodyChunks) =
        [tv.1] :: tv.2 :: (pairPayloads rest ++ ([] :: bodyChunks)) := by
      simp [pairPayloads]
    rw [hflat, parseFields_pair, ih]
    simp

/-- Content-type projection of one tag application. -/
theorem applyTag_contentType (st : FieldState) (t : Nat) (v : List Nat) :
    (applyTag st t v).contentType =
      if t = 1 ∧ st.contentType = [] then v else st.contentType := by
  unfold applyTag
  split_ifs <;> simp_all

/-- Metadata-chunks projection of one tag application. -/
theorem applyTag_metadataChunks (st : FieldState) (t : Nat) (v : List Nat) :
    (applyTag st t v).metadataChunks =
      if t = 5 then some (st.metadataChunks.getD [] ++ [v])
      else st.metadataChunks := by
  unfold applyTag
  split_ifs <;> simp_all

/-- A non-empty content type survives any sequence of tag applications. -/
theorem foldl_applyTag_contentType (extras : List (Nat × List Nat))
    (st : FieldState) (h : st.contentType ≠ []) :
    (extras.foldl (fun s tv => applyTag s tv.1 tv.2) st).contentType = st.contentType := by
  induction extras generalizing st with
  | nil => rfl
  | cons tv rest ih =>
    have hstep : (applyTag st tv.1 tv.2).contentType = st.contentType := by
      rw [applyTag_contentType]
      simp [h]
    rw [List.foldl_cons, ih _ (by rw [hstep]; exact h), hstep]

/-- Folding tag applications accumulates exactly the metadata-tag values,
in order. -/
theorem foldl_applyTag_metadataChunks (extras : List (Nat × List Nat))
    (st : FieldState) :
    (extras.foldl (fun s tv => applyTag s tv.1 tv.2) st).metadataChunks =
      if extras.filter (fun tv => tv.1 = 5) = [] then st.metadataChunks
      else some (st.metadataChunks.getD [] ++
        (extras.filter (fun tv => tv.1 = 5)).map Prod.snd) := by
  induction extras generalizing st with
  | nil => rfl
  | cons tv rest ih =>
    rw [List.foldl_cons, ih]
    by_cases h5 : tv.1 = 5
    · have hmd : (applyTag st tv.1 tv.2).metadataChunks =
          some (st.metadataChunks.getD [] ++ [tv.2]) := by
        rw [applyTag_metadataChunks]; simp [h5]
      rw [hmd]
      by_cases hrest : rest.filter (fun tv => tv.1 = 5) = []
      · simp [hrest, List.filter_cons, h5]
      · simp [hrest, List.filter_cons, h5]
    · have hmd : (applyTag st tv.1 tv.2).metadataChunks = st.metadataChunks := by
        rw [applyTag_metadataChunks]; simp [h5]
      rw [hmd]
      have hfil : List.filter (fun tv => decide (tv.1 = 5)) (tv :: rest) =
          List.filter (fun tv => decide (tv.1 = 5)) rest := by
        simp [List.filter_cons, h5]
      rw [hfil]

/-- Collecting payloads of a PUSHBYTES region terminated by OP_ENDIF
yields exactly those payloads. -/
theorem collectPayloads_encode_endif (ps : List (List Nat))
    (hps : ∀ p ∈ ps, p.length ≤ 75) :
    collectPayloads (encodePushes ps ++ [0x68]) = ps := by
  rw [collectPayloads_encode ps [0x68] hps]
  rw [collectPayloads]
  simp

/-- Collecting payloads stops, without failing, at a PUSHBYTES opcode
whose claimed length overruns the script end. -/
theorem collectPayloads_overrun (k : Nat) (data : List Nat)
    (hk1 : 1 ≤ k) (hk2 : k ≤ 75) (hd : data.length < k) :
    collectPayloads (k :: data) = [] := by
  rw [collectPayloads.eq_def]
  have hb : ¬ (k = 0x68) := by omega
  simp only [hb, if_false]
  have hread : readPush (k :: data) = none := by
    simp only [readPush]
    have hne : ¬ (k = 0) := by omega
    have hr : 1 ≤ k ∧ k ≤ 0x4b := ⟨hk1, hk2⟩
    simp [hne, hr, hd]
  split
  · rfl
  · next d r heq =>
    rw [hread] at heq
    cases heq

end OrdinalsParser

open OrdinalsParser in
/-- C7 counterexample.  The single witness item below contains, after an
`ord` envelope candidate that parses to nothing (no fields, no body), a
fully valid envelope with content type "a" and body "b".  The stack thus
contains a valid envelope, yet `parseInscription` returns nothing: the
extractor commits to the first marker match of an item and never resumes
the scan after it. -/
theorem parseInscription_misses_valid_envelope_after_invalid_candidate :
    extractEnvelope [0, 99, 3, 111, 114, 100, 1, 1, 1, 97, 0, 1, 98, 104] =
      some ⟨[98], [97], none, none, none, none, none, none⟩ ∧
    parseInscription
      [[0, 99, 3, 111, 114, 100, 104] ++
        [0, 99, 3, 111, 114, 100, 1, 1, 1, 97, 0, 1, 98, 104]] = none := by
  constructor <;>
    simp [parseInscription, extractEnvelope, readPush, collectPayloads,
      parsePayloads, parseFields, applyTag]

open OrdinalsParser in
/-- C7 amended.  First part: `parseInscription` returns the envelope of
the first witness item whose extraction succeeds (extraction commits to
an item's first marker candidate, so an item whose first candidate is
invalid contributes nothing).  Second part: inside an envelope, a push
whose claimed length overruns the script end counts as not-a-push; the
collection stops there without aborting and the result is exactly the
parse of the payloads collected so far. -/
theorem parseInscription_first_item_and_overrun_truncation :
    (∀ (ws1 : List (List Nat)) (w : List Nat) (ws2 : List (List Nat))
       (e : InscriptionEnvelope),
       (∀ w2 ∈ ws1, extractEnvelope w2 = none) →
       extractEnvelope w = some e →
       parseInscription (ws1 ++ w :: ws2) = some e) ∧
    (∀ (ps : List (List Nat)) (k : Nat) (data : List Nat),
       (∀ p ∈ ps, p.length ≤ 75) → 1 ≤ k → k ≤ 75 → data.length < k →
       extractEnvelope
         ([0x00, 0x63] ++ pushB [111, 114, 100] ++ (encodePushes ps ++ (k :: data))) =
         parsePayloads ps) := by
  constructor
  · intro ws1 w ws2 e hnone hsome
    induction ws1 with
    | nil => simp [parseInscription, hsome]
    | cons w1 rest ih =>
      have h1 : extractEnvelope w1 = none := hnone w1 (by simp)
      have hrest : ∀ w2 ∈ rest, extractEnvelope w2 = none :=
        fun w2 hw2 => hnone w2 (by simp [hw2])
      show parseInscription (w1 :: (rest ++ w :: ws2)) = some e
      rw [parseInscription, h1]
      exact ih hrest
  · intro ps k data hps hk1 hk2 hd
    rw [extractEnvelope_canonical]
    rw [collectPayloads_encode ps _ hps]
    rw [collectPayloads_overrun k data hk1 hk2 hd]
    simp

open OrdinalsParser in
/-- C7 amended, witness: the first-item rule applied to a two-item stack
whose first item extracts to nothing, and the overrun rule applied to a
one-payload envelope cut short by a PUSHBYTES_5 opcode followed by a
single byte. -/
theorem parseInscription_first_item_and_overrun_truncation_witness :
    parseInscription [[7, 7], [0, 99, 3, 111, 114, 100, 1, 1, 1, 97, 0, 1, 98, 104]] =
      some ⟨[98], [97], none, none, none, none, none, none⟩ ∧
    extractEnvelope
      ([0x00, 0x63] ++ pushB [111, 114, 100] ++ (encodePushes [[1], [97]] ++ (5 :: [42]))) =
      parsePayloads [[1], [97]] := by
  constructor
  · exact parseInscription_first_item_and_overrun_truncation.1 [[7, 7]]
      [0, 99, 3, 111, 114, 100, 1, 1, 1, 97, 0, 1, 98, 104] [] _
      (by intro w2 hw2; simp at hw2; subst hw2; simp [extractEnvelope])
      (by simp [extractEnvelope, readPush, collectPayloads,
            parsePayloads, parseFields, applyTag])
  · exact parseInscription_first_item_and_overrun_truncation.2 [[1], [97]] 5 [42]
      (by intro p hp; simp at hp; rcases hp with h | h <;> simp [h])
      (by omega) (by omega) (by simp)

open OrdinalsParser in
/-- C8 counterexample.  The canonical envelope built from an empty content
type, no extra tags, and an empty body parses to nothing instead of an
envelope carrying the original (empty) content type and body: the parser
rejects an envelope with neither a content type nor a body. -/
theorem roundtrip_fails_on_empty_envelope :
    parseInscription [buildCanonicalEnvelope [] [] []] = none := by
  simp [buildCanonicalEnvelope, encodePushes, pushB, pairPayloads,
    parseInscription, extractEnvelope, readPush, collectPayloads,
    parsePayloads, parseFields, applyTag]

open OrdinalsParser in
/-- C8 amended.  For every non-empty content type of at most 75 bytes,
every list of extra one-byte-tag/value pairs, and every chunked body (all
pushes within the PUSHBYTES range), parsing the canonical envelope yields
an envelope whose content type is the original, whose content is the
in-order concatenation of the body chunks, and whose metadata is the
in-order concatenation of the values of all metadata-tag (5) pairs (absent
when there are none). -/
theorem parse_buildCanonicalEnvelope_roundtrip (ct : List Nat)
    (extras : List (Nat × List Nat)) (bodyChunks : List (List Nat))
    (hct : ct ≠ []) (hctl : ct.length ≤ 75)
    (hv : ∀ tv ∈ extras, tv.2.length ≤ 75)
    (hb : ∀ c ∈ bodyChunks, c.length ≤ 75) :
    ∃ e, parseInscription [buildCanonicalEnvelope ct extras bodyChunks] = some e ∧
      e.contentType = ct ∧
      e.content = bodyChunks.flatten ∧
      e.metadata = (if extras.filter (fun tv => tv.1 = 5) = [] then none
        else some ((extras.filter (fun tv => tv.1 = 5)).map Prod.snd).flatten) := by
  have hsplit : buildCanonicalEnvelope ct extras bodyChunks =
      [0x00, 0x63] ++ pushB [111, 114, 100] ++
        (encodePushes ([1] :: ct :: (pairPayloads extras ++ [[]] ++ bodyChunks)) ++ [0x68]) := by
    simp [buildCanonicalEnvelope, encodePushes]
  have hall : ∀ p ∈ [1] :: ct :: (pairPayloads extras ++ [[]] ++ bodyChunks), p.length ≤ 75 := by
    intro p hp
    simp only [List.mem_cons, List.mem_append] at hp
    rcases hp with h | h | (h | h) | h
    · simp [h]
    · simp [h, hctl]
    · simp only [pairPayloads, List.mem_flatten, List.mem_map] at h
      obtain ⟨l, ⟨tv, htv, rfl⟩, hl⟩ := h
      simp only [List.mem_cons] at hl
      rcases hl with rfl | hl
      · simp
      · simp at hl
        subst hl
        exact hv tv htv
    · simp at h
      simp [h]
    · exact hb p h
  have hcollect : collectPayloads (encodePushes
      ([1] :: ct :: (pairPayloads extras ++ [[]] ++ bodyChunks)) ++ [0x68]) =
      [1] :: ct :: (pairPayloads extras ++ [[]] ++ bodyChunks) :=
    collectPayloads_encode_endif _ hall
  have hfields : parseFields {} ([1] :: ct :: (pairPayloads extras ++ [[]] ++ bodyChunks)) =
      (extras.foldl (fun s tv => applyTag s tv.1 tv.2)
        { contentType := ct }, some bodyChunks) := by
    have h1 : ([[]] ++ bodyChunks : List (List Nat)) = [] :: bodyChunks := by simp
    rw [show ([1] :: ct :: (pairPayloads extras ++ [[]] ++ bodyChunks) : List (List Nat)) =
      [1] :: ct :: (pairPayloads extras ++ ([] :: bodyChunks)) by simp]
    rw [parseFields_pair, parseFields_pairs]
    have happ : applyTag {} 1 ct = { contentType := ct } := by
      unfold applyTag
      simp
    rw [happ]
  have hctfinal : (extras.foldl (fun s tv => applyTag s tv.1 tv.2)
      ({ contentType := ct } : FieldState)).contentType = ct :=
    foldl_applyTag_contentType extras _ (by simpa using hct)
  have hmdfinal : (extras.foldl (fun s tv => applyTag s tv.1 tv.2)
      ({ contentType := ct } : FieldState)).metadataChunks =
      (if extras.filter (fun tv => tv.1 = 5) = [] then none
       else some ((extras.filter (fun tv => tv.1 = 5)).map Prod.snd)) := by
    rw [foldl_applyTag_metadataChunks]
    split_ifs with h0 <;> simp
  set S := extras.foldl (fun s tv => applyTag s tv.1 tv.2)
    ({ contentType := ct } : FieldState) with hS
  refine ⟨{ content := bodyChunks.flatten, contentType := S.contentType,
            pointer := S.pointer, parent := S.parent,
            metadata := S.metadataChunks.map List.flatten,
            metaprotocol := S.metaprotocol, contentEncoding := S.contentEncoding,
            delegate := S.delegate }, ?_, ?_, ?_, ?_⟩
  · rw [parseInscription, hsplit, extractEnvelope_canonical, hcollect]
    rw [parsePayloads]
    simp only [hfields]
    have hne : ¬ (S.contentType = [] ∧ ((some bodyChunks).getD []).flatten = []) := by
      rw [hctfinal]
      simp [hct]
    simp only [hne, if_false]
    simp
  · exact hctfinal
  · rfl
  · show Option.map List.flatten S.metadataChunks = _
    rw [hmdfinal]
    split_ifs <;> simp

open OrdinalsParser in
/-- C8 amended, witness: content type "t", a metadata pair, an unrelated
pair, a second metadata pair, and a two-chunk body round-trip as stated. -/
theorem parse_buildCanonicalEnvelope_roundtrip_witness :
    ∃ e, parseInscription
        [buildCanonicalEnvelope [116] [(5, [1]), (9, [120]), (5, [2])] [[72], [105]]] = some e ∧
      e.contentType = [116] ∧ e.content = [72, 105] ∧ e.metadata = some [1, 2] := by
  obtain ⟨e, h1, h2, h3, h4⟩ := parse_buildCanonicalEnvelope_roundtrip
    [116] [(5, [1]), (9, [120]), (5, [2])] [[72], [105]]
    (by simp) (by simp)
    (by intro tv htv; simp at htv; rcases htv with h | h | h <;> simp [h])
    (by intro c hc; simp at hc; rcases hc with h | h <;> simp [h])
  refine ⟨e, h1, h2, by simpa using h3, ?_⟩
  rw [h4]
  simp [List.filter_cons]

namespace OrdinalsParser

/-- Value of the first pair carrying a given tag, if any. -/
def firstWithTag (t : Nat) (pairs : List (Nat × List Nat)) : Option (List Nat) :=
  (pairs.find? (fun tv => tv.1 = t)).map Prod.snd

/-- Pointer projection of one tag application. -/
theorem applyTag_pointer (st : FieldState) (t : Nat) (v : List Nat) :
    (applyTag st t v).pointer =
      if t = 2 ∧ st.pointer = none then some v else st.pointer := by
  unfold applyTag
  split_ifs <;> simp_all

/-- Parent projection of one tag application. -/
theorem applyTag_parent (st : FieldState) (t : Nat) (v : List Nat) :
    (applyTag st t v).parent =
      if t = 3 ∧ st.parent = none then some v else st.parent := by
  unfold applyTag
  split_ifs <;> simp_all

/-- Metaprotocol projection of one tag application. -/
theorem applyTag_metaprotocol (st : FieldState) (t : Nat) (v : List Nat) :
    (applyTag st t v).metaprotocol =
      if t = 7 ∧ st.metaprotocol = none then some v else st.metaprotocol := by
  unfold applyTag
  split_ifs <;> simp_all

/-- Content-encoding projection of one tag application. -/
theorem applyTag_contentEncoding (st : FieldState) (t : Nat) (v : List Nat) :
    (applyTag st t v).contentEncoding =
      if t = 9 ∧ st.contentEncoding = none then some v else st.contentEncoding := by
  unfold applyTag
  split_ifs <;> simp_all

/-- Delegate projection of one tag application. -/
theorem applyTag_delegate (st : FieldState) (t : Nat) (v : List Nat) :
    (applyTag st t v).delegate =
      if t = 11 ∧ st.delegate = none then some v else st.delegate := by
  unfold applyTag
  split_ifs <;> simp_all

/-- Folding tag applications over an optional set-once field keeps the
already-set value and otherwise takes the first pair with the field's
tag: a source-level "first occurrence wins". -/
theorem foldl_applyTag_optfield (g : FieldState → Option (List Nat)) (t : Nat)
    (happly : ∀ (st : FieldState) (t2 : Nat) (v : List Nat),
      g (applyTag st t2 v) = if t2 = t ∧ g st = none then some v else g st)
    (pairs : List (Nat × List Nat)) (st : FieldState) :
    g (pairs.foldl (fun s tv => applyTag s tv.1 tv.2) st) =
      if g st = none then firstWithTag t pairs else g st := by
  induction pairs generalizing st with
  | nil =>
    simp only [List.foldl_nil, firstWithTag, List.find?_nil, Option.map_none']
    split_ifs with h
    · exact h
    · rfl
  | cons tv rest ih =>
    rw [List.foldl_cons, ih]
    by_cases ht : tv.1 = t
    · by_cases hp : g st = none
      · rw [happly]
        simp [ht, hp, firstWithTag, List.find?_cons]
      · rw [happly]
        simp [ht, hp, firstWithTag]
    · rw [happly]
      simp only [ht, false_and, if_false]
      by_cases hp : g st = none
      · simp [hp, firstWithTag, List.find?_cons, ht]
      · simp [hp]

/-- Folding tag applications from an empty content type yields the value
of the first content-type pair with a non-empty value (empty otherwise):
an empty first value does not claim the field. -/
theorem foldl_applyTag_contentType_empty (pairs : List (Nat × List Nat))
    (st : FieldState) (h : st.contentType = []) :
    (pairs.foldl (fun s tv => applyTag s tv.1 tv.2) st).contentType =
      (((pairs.find? (fun tv => tv.1 = 1 ∧ ¬ tv.2 = [])).map Prod.snd).getD []) := by
  induction pairs generalizing st with
  | nil => simp [h]
  | cons tv rest ih =>
    rw [List.foldl_cons]
    by_cases h1 : tv.1 = 1
    · by_cases h2 : tv.2 = []
      · have hstep : (applyTag st tv.1 tv.2).contentType = [] := by
          rw [applyTag_contentType]
          simp [h1, h, h2]
        rw [ih _ hstep]
        simp [List.find?_cons, h1, h2]
      · have hstep : (applyTag st tv.1 tv.2).contentType = tv.2 := by
          rw [applyTag_contentType]
          simp [h1, h]
        rw [foldl_applyTag_contentType rest (applyTag st tv.1 tv.2) (by rw [hstep]; exact h2)]
        rw [hstep]
        simp [List.find?_cons, h1, h2]
    · have hstep : (applyTag st tv.1 tv.2).contentType = [] := by
        rw [applyTag_contentType]
        simp [h1, h]
      rw [ih _ hstep]
      simp [List.find?_cons, h1]

end OrdinalsParser

open OrdinalsParser in
/-- C9 counterexample.  The payload sequence carries the content-type tag
twice, first with an empty value and then with value "a", plus a body
"b".  First-occurrence-wins would leave the content type empty, but the
parser returns content type "a": only a non-empty first value claims the
content-type field. -/
theorem contentType_first_occurrence_does_not_win :
    parsePayloads [[1], [], [1], [97], [], [98]] =
      some ⟨[98], [97], none, none, none, none, none, none⟩ := by
  simp [parsePayloads, parseFields, applyTag]

open OrdinalsParser in
/-- C9 amended.  First part: a tag payload that is not exactly one byte
skips that tag/value pair without aborting.  Second part: walking a pair
list, each set-once field (pointer, parent, metaprotocol,
content_encoding, delegate) takes the value of the first pair with its
tag, while the content type takes the first pair with tag 1 and a
non-empty value (an empty first value does not win).  Third part: the
parse returns nothing exactly when the walked fields produced no content
type and the body region is empty. -/
theorem parsePayloads_tag_rules :
    (∀ (st : FieldState) (tag v : List Nat) (rest : List (List Nat)),
       ¬ tag = [] → ¬ tag.length = 1 →
       parseFields st (tag :: v :: rest) = parseFields st rest) ∧
    (∀ (pairs : List (Nat × List Nat)) (bodyChunks : List (List Nat)),
       (parseFields {} (pairPayloads pairs ++ ([] :: bodyChunks))).1.contentType =
         (((pairs.find? (fun tv => tv.1 = 1 ∧ ¬ tv.2 = [])).map Prod.snd).getD []) ∧
       (parseFields {} (pairPayloads pairs ++ ([] :: bodyChunks))).1.pointer =
         firstWithTag 2 pairs ∧
       (parseFields {} (pairPayloads pairs ++ ([] :: bodyChunks))).1.parent =
         firstWithTag 3 pairs ∧
       (parseFields {} (pairPayloads pairs ++ ([] :: bodyChunks))).1.metaprotocol =
         firstWithTag 7 pairs ∧
       (parseFields {} (pairPayloads pairs ++ ([] :: bodyChunks))).1.contentEncoding =
         firstWithTag 9 pairs ∧
       (parseFields {} (pairPayloads pairs ++ ([] :: bodyChunks))).1.delegate =
         firstWithTag 11 pairs) ∧
    (∀ payloads : List (List Nat),
       parsePayloads payloads = none ↔
         ((parseFields {} payloads).1.contentType = [] ∧
          ((parseFields {} payloads).2.getD []).flatten = [])) := by
  refine ⟨?_, ?_, ?_⟩
  · intro st tag v rest htag0 htag1
    rw [parseFields.eq_def]
    simp [htag0, htag1]
  · intro pairs bodyChunks
    rw [parseFields_pairs]
    refine ⟨?_, ?_, ?_, ?_, ?_, ?_⟩
    · exact foldl_applyTag_contentType_empty pairs {} rfl
    · rw [foldl_applyTag_optfield (fun s => s.pointer) 2 (fun st t2 v => applyTag_pointer st t2 v)]
      simp
    · rw [foldl_applyTag_optfield (fun s => s.parent) 3 (fun st t2 v => applyTag_parent st t2 v)]
      simp
    · rw [foldl_applyTag_optfield (fun s => s.metaprotocol) 7
        (fun st t2 v => applyTag_metaprotocol st t2 v)]
      simp
    · rw [foldl_applyTag_optfield (fun s => s.contentEncoding) 9
        (fun st t2 v => applyTag_contentEncoding st t2 v)]
      simp
    · rw [foldl_applyTag_optfield (fun s => s.delegate) 11
        (fun st t2 v => applyTag_delegate st t2 v)]
      simp
  · intro payloads
    by_cases h : ((parseFields {} payloads).1.contentType = [] ∧
        ((parseFields {} payloads).2.getD []).flatten = [])
    · simp [parsePayloads, h]
    · simp [parsePayloads, h]

open OrdinalsParser in
/-- C9 amended, witness: a two-byte tag payload pair is skipped; a pair
list with a repeated pointer tag keeps the first pointer value; and the
all-empty payload sequence parses to nothing. -/
theorem parsePayloads_tag_rules_witness :
    parseFields {} ([5, 5] :: [7] :: ([[1], [116]] : List (List Nat))) =
      parseFields {} [[1], [116]] ∧
    (parseFields {} (pairPayloads [(2, [40]), (2, [41])] ++ ([] :: ([] : List (List Nat))))).1.pointer =
      some [40] ∧
    (parsePayloads [] = none ↔
      ((parseFields {} ([] : List (List Nat))).1.contentType = [] ∧
       ((parseFields {} ([] : List (List Nat))).2.getD []).flatten = [])) := by
  refine ⟨?_, ?_, ?_⟩
  · exact parsePayloads_tag_rules.1 {} [5, 5] [7] [[1], [116]] (by simp) (by simp)
  · rw [(parsePayloads_tag_rules.2.1 [(2, [40]), (2, [41])] []).2.1]
    simp [firstWithTag, List.find?_cons]
  · exact parsePayloads_tag_rules.2.2 []

/-- Persisted inscription row, mirroring the `Inscription` record and the
`inscriptions` table (src/database.ts, part_008 lines 30-43). -/
structure Inscription where
  id : String
  contentType : List Nat
  content : List Nat
  blockHeight : Nat
  blockHash : String
  txid : String
  vout : Nat
  owner : String
  timestamp : Nat
  inscriptionNumber : Nat
deriving Repr, DecidableEq

namespace InscriptionDatabase

/-- Embedding of `InscriptionDatabase.save` (part_008 lines 74-99):
INSERT … ON CONFLICT (id) DO NOTHING over the rows list. -/
def save (db : List Inscription) (ins : Inscription) : List Inscription :=
  if db.any (fun r => r.id = ins.id) then db else db ++ [ins]

/-- Embedding of `InscriptionDatabase.getCount` (part_008 lines 184-194):
SELECT COUNT(*). -/
def getCount (db : List Inscription) : Nat := db.length

/-- Embedding of `InscriptionDatabase.deleteFromHeight` (part_008 lines
199-212): DELETE WHERE block_height >= height, returning the deleted
count and the remaining rows. -/
def deleteFromHeight (db : List Inscription) (height : Nat) : Nat × List Inscription :=
  ((db.filter (fun r => height ≤ r.blockHeight)).length,
    db.filter (fun r => ¬ height ≤ r.blockHeight))

end InscriptionDatabase

/-- Burn-claim lifecycle status (src/types.ts `BurnClaimStatus`). -/
inductive BurnClaimStatus
  | detected
  | underpaid
  | confirmed
  | attested
  | failed
deriving Repr, DecidableEq

/-- Persisted burn claim, mirroring the `BurnClaim` record and the
`burn_claims` table (src/bridge-database.ts lines 22-48). -/
structure BurnClaim where
  inscriptionId : String
  collectionName : String
  tokenId : Nat
  senderAddress : String
  burnTxid : String
  burnBlockHeight : Nat
  burnBlockHash : String
  status : BurnClaimStatus
  attestTxid : Option String
  createdAt : Nat
  updatedAt : Nat
deriving Repr, DecidableEq

namespace BridgeDatabase

/-- Embedding of `BridgeDatabase.insertClaim` (src/bridge-database.ts
lines 56-79): INSERT … ON CONFLICT (inscription_id) DO NOTHING. -/
def insertClaim (db : List BurnClaim) (c : BurnClaim) : List BurnClaim :=
  if db.any (fun r => r.inscriptionId = c.inscriptionId) then db else db ++ [c]

/-- Embedding of `BridgeDatabase.updateStatus` (src/bridge-database.ts
lines 84-105): set status (and the attest txid when given) plus
updated_at on the row with the given id.  `Date.now()` is the explicit
`now` argument. -/
def updateStatus (db : List BurnClaim) (now : Nat) (id : String)
    (st : BurnClaimStatus) (atx : Option String) : List BurnClaim :=
  db.map (fun c =>
    if c.inscriptionId = id then
      match atx with
      | some t => { c with status := st, attestTxid := some t, updatedAt := now }
      | none => { c with status := st, updatedAt := now }
    else c)

/-- Stable insertion into a list ascending by created_at. -/
def insertByCreatedAt (c : BurnClaim) : List BurnClaim → List BurnClaim
  | [] => [c]
  | d :: rest =>
    if c.createdAt ≤ d.createdAt then c :: d :: rest else d :: insertByCreatedAt c rest

/-- Stable sort ascending by created_at, modelling ORDER BY created_at
ASC (tie order among equal keys is not guaranteed by SQL; the theorems
below only rely on it through already-sorted inputs). -/
def sortByCreatedAt (db : List BurnClaim) : List BurnClaim :=
  db.foldr insertByCreatedAt []

/-- Embedding of `BridgeDatabase.getByStatus` (src/bridge-database.ts
lines 126-136): SELECT WHERE status ORDER BY created_at ASC LIMIT limit,
with the source's default limit of 100. -/
def getByStatus (db : List BurnClaim) (st : BurnClaimStatus) (limit : Nat) : List BurnClaim :=
  (sortByCreatedAt (db.filter (fun c => c.status = st))).take limit

/-- Embedding of `BridgeDatabase.deleteFromHeight` (src/bridge-database.ts
lines 188-195): DELETE WHERE burn_block_height >= height AND status =
detected, returning the deleted count and the remaining rows. -/
def deleteFromHeight (db : List BurnClaim) (height : Nat) : Nat × List BurnClaim :=
  ((db.filter (fun c => height ≤ c.burnBlockHeight ∧ c.status = .detected)).length,
    db.filter (fun c => ¬ (height ≤ c.burnBlockHeight ∧ c.status = .detected)))

/-- Embedding of `BridgeDatabase.isClaimed` (src/bridge-database.ts lines
200-206). -/
def isClaimed (db : List BurnClaim) (id : String) : Bool :=
  db.any (fun c => c.inscriptionId = id)

end BridgeDatabase

/-- Collection registry: the loader keeps the inscription ids in token-id
order (token_id = index), so the registry is the ordered id list plus the
collection name (src/collection.ts). -/
structure CollectionRegistry where
  name : String
  items : List String
deriving Repr, DecidableEq

/-- Embedding of `CollectionRegistry.getByInscriptionId`: the token id of
an inscription is its index in the loaded list. -/
def CollectionRegistry.getByInscriptionId (reg : CollectionRegistry) (id : String) : Option Nat :=
  reg.items.findIdx? (fun x => x = id)

/-- Detected burn handed from the indexer to the bridge service
(part_009 lines 246-253); `feePaid` is the optional fee field. -/
structure DetectedBurn where
  txid : String
  inscriptionId : String
  senderAddress : String
  blockHeight : Nat
  blockHash : String
  feePaid : Option Nat
deriving Repr, DecidableEq

namespace BridgeService

/-- Embedding of `BridgeService.processBurn` (part_009 lines 295-349):
reject silently when the inscription is not in the collection or already
has a claim; otherwise insert a claim whose status is underpaid exactly
when a positive minimum fee is configured and the paid fee is below it. -/
def processBurn (reg : CollectionRegistry) (minFeeSats : Nat) (now : Nat)
    (db : List BurnClaim) (burn : DetectedBurn) : Option Nat × List BurnClaim :=
  match reg.getByInscriptionId burn.inscriptionId with
  | none => (none, db)
  | some tokenId =>
    if BridgeDatabase.isClaimed db burn.inscriptionId then (none, db)
    else
      let feePaid := burn.feePaid.getD 0
      let claim : BurnClaim :=
        { inscriptionId := burn.inscriptionId
          collectionName := reg.name
          tokenId := tokenId
          senderAddress := burn.senderAddress
          burnTxid := burn.txid
          burnBlockHeight := burn.blockHeight
          burnBlockHash := burn.blockHash
          status := if 0 < minFeeSats ∧ feePaid < minFeeSats then .underpaid else .detected
          attestTxid := none
          createdAt := now
          updatedAt := now }
      (some tokenId, BridgeDatabase.insertClaim db claim)

/-- Embedding of `BridgeService.confirmPendingClaims` (part_009 lines
358-375): walk the detected claims returned by the store (default limit
100) and promote those with enough confirmations, counting promotions.
The confirmation count is signed arithmetic as in the source. -/
def confirmPendingClaims (requiredConfirmations : Nat) (now : Nat) (currentHeight : Nat)
    (db : List BurnClaim) : Nat × List BurnClaim :=
  let pending := BridgeDatabase.getByStatus db .detected 100
  pending.foldl (fun acc claim =>
    if (requiredConfirmations : Int) ≤ (currentHeight : Int) - (claim.burnBlockHeight : Int) then
      (acc.1 + 1, BridgeDatabase.updateStatus acc.2 now claim.inscriptionId .confirmed none)
    else acc) (0, db)

/-- Embedding of `BridgeService.getClaimsReadyForAttestation` (part_009
lines 380-382): the confirmed claims, through the store's default
limit. -/
def getClaimsReadyForAttestation (db : List BurnClaim) : List BurnClaim :=
  BridgeDatabase.getByStatus db .confirmed 100

/-- Embedding of `BridgeService.markAttested` (part_009 lines 387-392). -/
def markAttested (now : Nat) (db : List BurnClaim) (id : String) (atx : String) :
    List BurnClaim :=
  BridgeDatabase.updateStatus db now id .attested (some atx)

/-- Embedding of `BridgeService.markFailed` (part_009 lines 397-400). -/
def markFailed (now : Nat) (db : List BurnClaim) (id : String) : List BurnClaim :=
  BridgeDatabase.updateStatus db now id .failed none

/-- Embedding of `BridgeService.handleReorg` (part_009 lines 470-478). -/
def handleReorg (db : List BurnClaim) (newHeight : Nat) : Nat × List BurnClaim :=
  BridgeDatabase.deleteFromHeight db newHeight

end BridgeService

/-- C10.  After the inscription store's delete-from-height every remaining
row has block_height < H; and the bridge store's delete-from-height keeps
a claim exactly when it was present and was not a detected claim at
height ≥ H — every underpaid, confirmed, attested, and failed claim is
kept verbatim. -/
theorem deleteFromHeight_reorg_semantics :
    (∀ (db : List Inscription) (height : Nat) (r : Inscription),
       r ∈ (InscriptionDatabase.deleteFromHeight db height).2 → r.blockHeight < height) ∧
    (∀ (db : List BurnClaim) (height : Nat) (c : BurnClaim),
       c ∈ (BridgeDatabase.deleteFromHeight db height).2 ↔
         c ∈ db ∧ ¬ (c.status = .detected ∧ height ≤ c.burnBlockHeight)) := by
  constructor
  · intro db height r hr
    simp [InscriptionDatabase.deleteFromHeight, List.mem_filter] at hr
    omega
  · intro db height c
    simp [BridgeDatabase.deleteFromHeight, List.mem_filter]
    tauto

/-- C10, witness: the spec scenario — a detected claim at height 110 and
an attested claim at height 108, reorg at 109 — keeps exactly the
attested claim, and a surviving inscription row sits below the reorg
height. -/
theorem deleteFromHeight_reorg_semantics_witness :
    (⟨"i1", [], [], 108, "h", "t", 0, "o", 0, 0⟩ : Inscription).blockHeight < 109 ∧
    ((⟨"c2", "n", 1, "s", "t", 108, "h", .attested, some "at", 0, 0⟩ : BurnClaim) ∈
      (BridgeDatabase.deleteFromHeight
        [⟨"c1", "n", 0, "s", "t", 110, "h", .detected, none, 0, 0⟩,
         ⟨"c2", "n", 1, "s", "t", 108, "h", .attested, some "at", 0, 0⟩] 109).2 ↔
      ((⟨"c2", "n", 1, "s", "t", 108, "h", .attested, some "at", 0, 0⟩ : BurnClaim) ∈
        [(⟨"c1", "n", 0, "s", "t", 110, "h", .detected, none, 0, 0⟩ : BurnClaim),
         ⟨"c2", "n", 1, "s", "t", 108, "h", .attested, some "at", 0, 0⟩] ∧
       ¬ ((BurnClaimStatus.attested = .detected) ∧ 109 ≤ 108))) := by
  constructor
  · exact deleteFromHeight_reorg_semantics.1
      [⟨"i1", [], [], 108, "h", "t", 0, "o", 0, 0⟩,
       ⟨"i2", [], [], 110, "h", "t", 0, "o", 0, 1⟩] 109
      ⟨"i1", [], [], 108, "h", "t", 0, "o", 0, 0⟩ (by decide)
  · exact deleteFromHeight_reorg_semantics.2
      [⟨"c1", "n", 0, "s", "t", 110, "h", .detected, none, 0, 0⟩,
       ⟨"c2", "n", 1, "s", "t", 108, "h", .attested, some "at", 0, 0⟩] 109
      ⟨"c2", "n", 1, "s", "t", 108, "h", .attested, some "at", 0, 0⟩

namespace BridgeDatabase

/-- Inserting below all keys of a list is a cons. -/
theorem insertByCreatedAt_of_le (c : BurnClaim) (l : List BurnClaim)
    (h : ∀ d ∈ l, c.createdAt ≤ d.createdAt) :
    insertByCreatedAt c l = c :: l := by
  cases l with
  | nil => rfl
  | cons d rest =>
    have hd : c.createdAt ≤ d.createdAt := h d (by simp)
    simp [insertByCreatedAt, hd]

/-- Sorting a list already ascending by created_at leaves it unchanged. -/
theorem sortByCreatedAt_of_sorted (l : List BurnClaim)
    (h : l.Pairwise (fun a b => a.createdAt ≤ b.createdAt)) :
    sortByCreatedAt l = l := by
  induction l with
  | nil => rfl
  | cons a rest ih =>
    have hrest := (List.pairwise_cons.mp h).2
    have hhead := (List.pairwise_cons.mp h).1
    show insertByCreatedAt a (sortByCreatedAt rest) = a :: rest
    rw [ih hrest]
    exact insertByCreatedAt_of_le a rest hhead

end BridgeDatabase

/-- Sequential application of the confirmation updates of a claim list. -/
def confirmAll (now : Nat) (l : List BurnClaim) (db : List BurnClaim) : List BurnClaim :=
  l.foldl (fun d c => BridgeDatabase.updateStatus d now c.inscriptionId .confirmed none) db

/-- Sequentially confirming a list of claims updates exactly the rows
whose id occurs in that list, each to confirmed with the given
updated_at, and leaves every other row unchanged. -/
theorem confirmAll_eq_map (now : Nat) (l : List BurnClaim) (db : List BurnClaim) :
    confirmAll now l db = db.map (fun c =>
      if l.any (fun e => e.inscriptionId = c.inscriptionId) then
        { c with status := .confirmed, updatedAt := now } else c) := by
  induction l generalizing db with
  | nil => simp [confirmAll]
  | cons e rest ih =>
    show confirmAll now rest
        (BridgeDatabase.updateStatus db now e.inscriptionId .confirmed none) = _
    rw [ih]
    rw [BridgeDatabase.updateStatus, List.map_map]
    apply List.map_congr_left
    intro c _
    by_cases hid : c.inscriptionId = e.inscriptionId
    · simp [Function.comp, hid]
    · have hid2 : ¬ e.inscriptionId = c.inscriptionId := fun hh => hid hh.symm
      simp [Function.comp, hid, hid2]

/-- The confirmation fold equals a count of the eligible claims plus the
sequential confirmation of exactly those claims. -/
theorem confirm_fold (req now h : Nat) (pend : List BurnClaim) (n : Nat)
    (db : List BurnClaim) :
    pend.foldl (fun acc claim =>
      if (req : Int) ≤ (h : Int) - (claim.burnBlockHeight : Int) then
        (acc.1 + 1, BridgeDatabase.updateStatus acc.2 now claim.inscriptionId .confirmed none)
      else acc) (n, db) =
    (n + (pend.filter (fun c => (req : Int) ≤ (h : Int) - (c.burnBlockHeight : Int))).length,
      confirmAll now (pend.filter (fun c => (req : Int) ≤ (h : Int) - (c.burnBlockHeight : Int))) db) := by
  induction pend generalizing n db with
  | nil => simp [confirmAll]
  | cons c rest ih =>
    by_cases he : (req : Int) ≤ (h : Int) - (c.burnBlockHeight : Int)
    · rw [List.foldl_cons]
      simp only [he, if_true]
      rw [ih]
      have hfil : (c :: rest).filter
          (fun c => decide ((req : Int) ≤ (h : Int) - (c.burnBlockHeight : Int))) =
          c :: rest.filter (fun c => decide ((req : Int) ≤ (h : Int) - (c.burnBlockHeight : Int))) := by
        simp [List.filter_cons, he]
      rw [hfil]
      simp only [Prod.mk.injEq]
      constructor
      · simp
        omega
      · rfl
    · rw [List.foldl_cons]
      simp only [he, if_false]
      rw [ih]
      have hfil : (c :: rest).filter
          (fun c => decide ((req : Int) ≤ (h : Int) - (c.burnBlockHeight : Int))) =
          rest.filter (fun c => decide ((req : Int) ≤ (h : Int) - (c.burnBlockHeight : Int))) := by
        simp [List.filter_cons, he]
      rw [hfil]

/-- The 101 detected claims used to exhibit the selection limit of the
confirmation sweep. -/
def c6db : List BurnClaim := (List.range 101).map (fun k =>
  { inscriptionId := toString k, collectionName := "c", tokenId := k,
    senderAddress := "s", burnTxid := "t", burnBlockHeight := 0,
    burnBlockHash := "h", status := .detected, attestTxid := none,
    createdAt := k, updatedAt := k })

set_option maxRecDepth 40000 in
/-- C6 counterexample.  With 101 detected claims, all with far more than
the required confirmations, the sweep promotes only 100 of them (the
store query carries a default LIMIT 100) and a fully-confirmable claim
remains detected — refuting "selects all claims with status detected /
sets confirmed on every claim with enough confirmations". -/
theorem confirmPendingClaims_misses_detected_claim :
    (BridgeService.confirmPendingClaims 6 999 100 c6db).1 = 100 ∧
    ∃ c ∈ (BridgeService.confirmPendingClaims 6 999 100 c6db).2,
      c.status = .detected ∧ (6 : Int) ≤ (100 : Int) - (c.burnBlockHeight : Int) := by
  decide

/-- C6 amended.  On a store whose rows are ascending by created_at, the
confirmation sweep selects the first 100 detected claims in created_at
order, promotes exactly the selected claims with enough confirmations to
confirmed (stamping updated_at), leaves every other claim unchanged, and
returns the number promoted. -/
theorem confirmPendingClaims_semantics (req now h : Nat) (db : List BurnClaim)
    (hsorted : db.Pairwise (fun a b => a.createdAt ≤ b.createdAt)) :
    (BridgeService.confirmPendingClaims req now h db).1 =
      (((db.filter (fun c => c.status = .detected)).take 100).filter
        (fun c => (req : Int) ≤ (h : Int) - (c.burnBlockHeight : Int))).length ∧
    (BridgeService.confirmPendingClaims req now h db).2 = db.map (fun c =>
      if (((db.filter (fun c2 => c2.status = .detected)).take 100).filter
            (fun c2 => (req : Int) ≤ (h : Int) - (c2.burnBlockHeight : Int))).any
          (fun e => e.inscriptionId = c.inscriptionId)
      then { c with status := .confirmed, updatedAt := now } else c) := by
  have hsortid : BridgeDatabase.sortByCreatedAt
      (db.filter (fun c => c.status = .detected)) =
      db.filter (fun c => c.status = .detected) :=
    BridgeDatabase.sortByCreatedAt_of_sorted _
      (List.Pairwise.sublist (List.filter_sublist db) hsorted)
  have hget : BridgeDatabase.getByStatus db .detected 100 =
      (db.filter (fun c => c.status = .detected)).take 100 := by
    rw [BridgeDatabase.getByStatus, hsortid]
  show (BridgeService.confirmPendingClaims req now h db).1 = _ ∧
    (BridgeService.confirmPendingClaims req now h db).2 = _
  rw [BridgeService.confirmPendingClaims]
  simp only [hget]
  rw [confirm_fold]
  rw [confirmAll_eq_map]
  constructor
  · simp
  · rfl

/-- C6 amended, witness: a two-claim store, one eligible detected claim
and one too-recent detected claim; the sweep promotes exactly the first
and returns 1. -/
theorem confirmPendingClaims_semantics_witness :
    (BridgeService.confirmPendingClaims 6 50 100
      [{ inscriptionId := "a", collectionName := "c", tokenId := 0,
         senderAddress := "s", burnTxid := "t", burnBlockHeight := 90,
         burnBlockHash := "h", status := .detected, attestTxid := none,
         createdAt := 1, updatedAt := 1 },
       { inscriptionId := "b", collectionName := "c", tokenId := 1,
         senderAddress := "s", burnTxid := "t", burnBlockHeight := 99,
         burnBlockHash := "h", status := .detected, attestTxid := none,
         createdAt := 2, updatedAt := 2 }]).1 = 1 := by
  have h := confirmPendingClaims_semantics 6 50 100
    [{ inscriptionId := "a", collectionName := "c", tokenId := 0,
       senderAddress := "s", burnTxid := "t", burnBlockHeight := 90,
       burnBlockHash := "h", status := .detected, attestTxid := none,
       createdAt := 1, updatedAt := 1 },
     { inscriptionId := "b", collectionName := "c", tokenId := 1,
       senderAddress := "s", burnTxid := "t", burnBlockHeight := 99,
       burnBlockHash := "h", status := .detected, attestTxid := none,
       createdAt := 2, updatedAt := 2 }] (by decide)
  rw [h.1]
  decide

/-- Output script descriptor as delivered by the block source: an
optional pre-decoded address and an optional address list
(part_005 lines 285-290 read `spk.address || (spk.addresses?.[0] ?? '')`). -/
structure ScriptPubKey where
  address : Option String := none
  addresses : Option (List String) := none
deriving Repr, DecidableEq

/-- Embedding of the address expression
`spk.address || (spk.addresses?.[0] ?? '')` with JS truthiness: an empty
or missing `address` falls back to the first entry of `addresses`, then
to the empty string. -/
def spkAddress (spk : ScriptPubKey) : String :=
  match spk.address with
  | some a => if a = "" then ((spk.addresses.getD []).headD "") else a
  | none => ((spk.addresses.getD []).headD "")

/-- Transaction output: script descriptor and value in sats. -/
structure TxOutput where
  scriptPubKey : ScriptPubKey
  value : Nat
deriving Repr, DecidableEq

/-- Transaction input: witness stack (hex items decoded to byte lists)
and previous outpoint. -/
structure TxInput where
  transactionInWitness : List (List Nat)
  originalTransactionId : String
  outputTransactionIndex : Nat
deriving Repr, DecidableEq

/-- Transaction as delivered by the block source. -/
structure Tx where
  hash : String
  inputs : List TxInput
  outputs : List TxOutput
deriving Repr, DecidableEq

/-- Block as delivered by the block source. -/
structure Block where
  hash : String
  previousBlockHash : String
  time : Nat
  transactions : List Tx
deriving Repr, DecidableEq

/-- Embedding of the first-output-address derivation of
`OrdinalsIndexerPlugin.processTransaction` (part_005 lines 285-290). -/
def firstOutputAddress (tx : Tx) : String :=
  match tx.outputs with
  | [] => ""
  | o :: _ => spkAddress o.scriptPubKey

/-- Embedding of `OrdinalsIndexerPlugin.checkForBurn` (part_005 lines
354-406): when the first output pays the burn address, derive the
inscription id from the first input's previous outpoint, require
collection membership, and hand a detected burn (sender = second output's
address when present) to the bridge service.  The source passes no
`feePaid` field. -/
def checkForBurn (reg : CollectionRegistry) (burnAddress : String) (currentHeight : Nat)
    (blockHash : String) (tx : Tx) : Option DetectedBurn :=
  if firstOutputAddress tx = burnAddress then
    match tx.inputs with
    | [] => none
    | i0 :: _ =>
      if i0.originalTransactionId = "" then none
      else
        let inscriptionId :=
          i0.originalTransactionId ++ "i" ++ toString i0.outputTransactionIndex
        if (reg.getByInscriptionId inscriptionId).isSome then
          let senderAddress := match tx.outputs with
            | _ :: o1 :: _ => spkAddress o1.scriptPubKey
            | _ => ""
          some { txid := tx.hash, inscriptionId := inscriptionId,
                 senderAddress := senderAddress, blockHeight := currentHeight,
                 blockHash := blockHash, feePaid := none }
        else none
  else none

/-- Modelled from the spec: the burn-detection fee computation against the
configured oracle fee address is not present under src (only the
`DetectedBurn.feePaid` declaration, the tests passing `feePaid`, and the
README's `ORACLE_FEE_ADDRESS` / `BRIDGE_MIN_FEE_SATS` configuration refer
to it).  Per the spec, `fee_paid` is the value of `outputs[1]` iff that
output pays the configured oracle fee address, otherwise 0; with no
oracle fee address configured the check is skipped and `fee_paid = 0`. -/
def computeFeePaid (oracleFeeAddress : Option String) (tx : Tx) : Nat :=
  match oracleFeeAddress with
  | none => 0
  | some oracle =>
    match tx.outputs with
    | _ :: o1 :: _ => if spkAddress o1.scriptPubKey = oracle then o1.value else 0
    | _ => 0

/-- Modelled from the spec: burn detection with the missing fee wiring,
attaching the spec's `fee_paid` to the detected burn. -/
def checkForBurnWithFee (reg : CollectionRegistry) (burnAddress : String)
    (oracleFeeAddress : Option String) (currentHeight : Nat) (blockHash : String)
    (tx : Tx) : Option DetectedBurn :=
  (checkForBurn reg burnAddress currentHeight blockHash tx).map
    (fun b => { b with feePaid := some (computeFeePaid oracleFeeAddress tx) })

/-- Burn detection followed by claim processing for one transaction. -/
def detectAndProcessBurn (reg : CollectionRegistry) (burnAddress : String)
    (oracleFeeAddress : Option String) (minFee now currentHeight : Nat)
    (blockHash : String) (db : List BurnClaim) (tx : Tx) : List BurnClaim :=
  match checkForBurnWithFee reg burnAddress oracleFeeAddress currentHeight blockHash tx with
  | none => db
  | some burn => (BridgeService.processBurn reg minFee now db burn).2

/-- C2.  For a transaction whose first output pays the configured burn
address (with a first input naming a previous txid): the spec-modelled
fee is the value of `outputs[1]` exactly when that output pays the
configured oracle fee address (0 otherwise, and 0 when none is
configured); burns not in the registry or already claimed leave the store
untouched; otherwise exactly one claim is appended, underpaid exactly
when a positive minimum fee exceeds the fee paid, else detected. -/
theorem burn_fee_and_claim_status
    (reg : CollectionRegistry) (burnAddr : String) (oracle : Option String)
    (minFee now currentHeight : Nat) (bh : String) (db : List BurnClaim) (tx : Tx)
    (i0 : TxInput) (irest : List TxInput)
    (hburn : firstOutputAddress tx = burnAddr)
    (hinputs : tx.inputs = i0 :: irest)
    (htxid : ¬ i0.originalTransactionId = "") :
    (∀ (oa : String) (o0 o1 : TxOutput) (orest : List TxOutput),
        tx.outputs = o0 :: o1 :: orest →
        computeFeePaid (some oa) tx =
          (if spkAddress o1.scriptPubKey = oa then o1.value else 0)) ∧
    computeFeePaid none tx = 0 ∧
    ((reg.getByInscriptionId
        (i0.originalTransactionId ++ "i" ++ toString i0.outputTransactionIndex) = none →
      detectAndProcessBurn reg burnAddr oracle minFee now currentHeight bh db tx = db) ∧
     (BridgeDatabase.isClaimed db
        (i0.originalTransactionId ++ "i" ++ toString i0.outputTransactionIndex) = true →
      detectAndProcessBurn reg burnAddr oracle minFee now currentHeight bh db tx = db) ∧
     (∀ tokenId,
        reg.getByInscriptionId
          (i0.originalTransactionId ++ "i" ++ toString i0.outputTransactionIndex) =
            some tokenId →
        BridgeDatabase.isClaimed db
          (i0.originalTransactionId ++ "i" ++ toString i0.outputTransactionIndex) = false →
        detectAndProcessBurn reg burnAddr oracle minFee now currentHeight bh db tx =
          db ++ [{ inscriptionId :=
                     i0.originalTransactionId ++ "i" ++ toString i0.outputTransactionIndex,
                   collectionName := reg.name, tokenId := tokenId,
                   senderAddress := (match tx.outputs with
                     | _ :: o1 :: _ => spkAddress o1.scriptPubKey
                     | _ => ""),
                   burnTxid := tx.hash, burnBlockHeight := currentHeight,
                   burnBlockHash := bh,
                   status := if 0 < minFee ∧ computeFeePaid oracle tx < minFee then
                       .underpaid else .detected,
                   attestTxid := none, createdAt := now, updatedAt := now }])) := by
  refine ⟨?_, ?_, ?_, ?_, ?_⟩
  · intro oa o0 o1 orest houts
    simp [computeFeePaid, houts]
  · rfl
  · intro hreg
    simp [detectAndProcessBurn, checkForBurnWithFee, checkForBurn, hburn, hinputs,
      htxid, hreg]
  · intro hclaimed
    by_cases hreg : (reg.getByInscriptionId
        (i0.originalTransactionId ++ "i" ++ toString i0.outputTransactionIndex)).isSome
    · obtain ⟨tokenId, htok⟩ := Option.isSome_iff_exists.mp hreg
      simp [detectAndProcessBurn, checkForBurnWithFee, checkForBurn, hburn, hinputs,
        htxid, hreg, BridgeService.processBurn, htok, hclaimed]
    · simp [detectAndProcessBurn, checkForBurnWithFee, checkForBurn, hburn, hinputs,
        htxid, Option.not_isSome_iff_eq_none.mp hreg]
  · intro tokenId htok hclaimed
    have hreg : (reg.getByInscriptionId
        (i0.originalTransactionId ++ "i" ++ toString i0.outputTransactionIndex)).isSome := by
      simp [htok]
    simp only [BridgeDatabase.isClaimed] at hclaimed
    simp [detectAndProcessBurn, checkForBurnWithFee, checkForBurn, hburn, hinputs,
      htxid, hreg, BridgeService.processBurn, htok, BridgeDatabase.isClaimed,
      BridgeDatabase.insertClaim, hclaimed]

/-- C2, witness: a burn of collection item "ppi0" paying 5000 sats to the
oracle fee address with a 10000-sat minimum creates an underpaid claim. -/
theorem burn_fee_and_claim_status_witness :
    detectAndProcessBurn ⟨"col", ["ppi0"]⟩ "burn" (some "oracle") 10000 7 100 "bh" []
      { hash := "bt", inputs := [⟨[], "pp", 0⟩],
        outputs := [⟨⟨some "burn", none⟩, 546⟩, ⟨⟨some "oracle", none⟩, 5000⟩] } =
      [{ inscriptionId := "ppi0", collectionName := "col", tokenId := 0,
         senderAddress := "oracle", burnTxid := "bt", burnBlockHeight := 100,
         burnBlockHash := "bh", status := .underpaid, attestTxid := none,
         createdAt := 7, updatedAt := 7 }] := by
  have h := (burn_fee_and_claim_status ⟨"col", ["ppi0"]⟩ "burn" (some "oracle")
    10000 7 100 "bh" []
    { hash := "bt", inputs := [⟨[], "pp", 0⟩],
      outputs := [⟨⟨some "burn", none⟩, 546⟩, ⟨⟨some "oracle", none⟩, 5000⟩] }
    ⟨[], "pp", 0⟩ [] (by decide) (by decide) (by decide)).2.2.2.2 0
    (by decide) (by decide)
  rw [h]
  decide

/-- Bridge configuration held by the plugin when the bridge is active
(src/types.ts `BridgeConfig` plus the registry built from it). -/
structure BridgeConfigModel where
  reg : CollectionRegistry
  burnAddress : String
  requiredConfirmations : Nat
  minFeeSats : Nat
deriving Repr, DecidableEq

/-- Mutable indexer state of `OrdinalsIndexerPlugin` (part_005 lines
39-43) together with the two database tables. -/
structure IndexerState where
  currentHeight : Nat
  lastBlockHash : String
  inscriptionCounter : Nat
  store : List Inscription
  bridgeDb : List BurnClaim
deriving Repr, DecidableEq

/-- Embedding of `OrdinalsIndexerPlugin.processTransaction` (part_005
lines 277-342): walk the inputs, parse each non-empty witness stack, and
for each envelope persist an inscription numbered by the post-incremented
counter (`this.inscriptionCounter++` runs whether or not the insert
conflicts); then run burn detection when the bridge is active.  Returns
the new counter, store, and bridge table. -/
def processTransaction (bridge : Option BridgeConfigModel) (blockHash : String)
    (blockTime : Nat) (currentHeight : Nat) (now : Nat) (tx : Tx)
    (counter : Nat) (store : List Inscription) (bdb : List BurnClaim) :
    Nat × List Inscription × List BurnClaim :=
  let firstAddr := firstOutputAddress tx
  let res := tx.inputs.foldl (fun (acc : Nat × Nat × List Inscription) input =>
      match input.transactionInWitness with
      | [] => acc
      | w =>
        match OrdinalsParser.parseInscription w with
        | none => acc
        | some env =>
          let ins : Inscription :=
            { id := tx.hash ++ "i" ++ toString acc.1
              contentType := env.contentType
              content := env.content
              blockHeight := currentHeight
              blockHash := blockHash
              txid := tx.hash
              vout := 0
              owner := firstAddr
              timestamp := blockTime
              inscriptionNumber := acc.2.1 }
          (acc.1 + 1, acc.2.1 + 1, InscriptionDatabase.save acc.2.2 ins))
    (0, counter, store)
  let bdb2 := match bridge with
    | none => bdb
    | some cfg =>
      match checkForBurn cfg.reg cfg.burnAddress currentHeight blockHash tx with
      | none => bdb
      | some burn => (BridgeService.processBurn cfg.reg cfg.minFeeSats now bdb burn).2
  (res.2.1, res.2.2, bdb2)

/-- Embedding of `OrdinalsIndexerPlugin.handleReorg` (part_005 lines
120-133): delete inscriptions from the reorged height, keep the height,
reseed the counter from the surviving count, and roll the bridge back. -/
def handleReorg (bridge : Option BridgeConfigModel) (s : IndexerState)
    (newHeight : Nat) : IndexerState :=
  let store2 := (InscriptionDatabase.deleteFromHeight s.store newHeight).2
  { currentHeight := newHeight
    lastBlockHash := s.lastBlockHash
    inscriptionCounter := InscriptionDatabase.getCount store2
    store := store2
    bridgeDb := match bridge with
      | none => s.bridgeDb
      | some _ => (BridgeService.handleReorg s.bridgeDb newHeight).2 }

/-- Embedding of the non-reorg path of
`OrdinalsIndexerPlugin.processNextBlock` (part_005 lines 228-259):
process every transaction in order, run the confirmation sweep when the
bridge is active, then record the block hash and advance the height. -/
def applyBlock (bridge : Option BridgeConfigModel) (now : Nat) (b : Block)
    (s : IndexerState) : IndexerState :=
  let res := b.transactions.foldl
    (fun (acc : Nat × List Inscription × List BurnClaim) tx =>
      processTransaction bridge b.hash b.time s.currentHeight now tx acc.1 acc.2.1 acc.2.2)
    (s.inscriptionCounter, s.store, s.bridgeDb)
  let bdb2 := match bridge with
    | none => res.2.2
    | some cfg =>
      (BridgeService.confirmPendingClaims cfg.requiredConfirmations now
        s.currentHeight res.2.2).2
  { currentHeight := s.currentHeight + 1
    lastBlockHash := b.hash
    inscriptionCounter := res.1
    store := res.2.1
    bridgeDb := bdb2 }

/-- Embedding of `OrdinalsIndexerPlugin.processNextBlock` (part_005 lines
212-270) applied to the block fetched at the current height: invoke reorg
handling and return without advancing when the parent hash does not link
to the recorded tip, otherwise process the block.  The flag reports
whether reorg handling ran. -/
def processNextBlock (bridge : Option BridgeConfigModel) (now : Nat) (b : Block)
    (s : IndexerState) : IndexerState × Bool :=
  if ¬ s.lastBlockHash = "" ∧ ¬ b.previousBlockHash = s.lastBlockHash then
    (handleReorg bridge s s.currentHeight, true)
  else
    (applyBlock bridge now b s, false)

/-- Folding a store-extending step only appends to the projected store. -/
theorem foldl_proj_extend {α β : Type} (proj : α → List Inscription) (g : α → β → α)
    (hg : ∀ acc x, ∃ added, proj (g acc x) = proj acc ++ added) :
    ∀ (l : List β) (acc : α), ∃ added, proj (l.foldl g acc) = proj acc ++ added := by
  intro l
  induction l with
  | nil => intro acc; exact ⟨[], by simp⟩
  | cons x rest ih =>
    intro acc
    obtain ⟨a1, h1⟩ := hg acc x
    obtain ⟨a2, h2⟩ := ih (g acc x)
    exact ⟨a1 ++ a2, by rw [List.foldl_cons, h2, h1, List.append_assoc]⟩

/-- The conflict-silent save only ever appends. -/
theorem save_extend (db : List Inscription) (i : Inscription) :
    ∃ added, InscriptionDatabase.save db i = db ++ added := by
  unfold InscriptionDatabase.save
  split_ifs
  · exact ⟨[], by simp⟩
  · exact ⟨[i], rfl⟩

/-- Processing a transaction only appends to the inscription store. -/
theorem processTransaction_store_extend (bridge : Option BridgeConfigModel)
    (blockHash : String) (blockTime currentHeight now : Nat) (tx : Tx)
    (counter : Nat) (store : List Inscription) (bdb : List BurnClaim) :
    ∃ added, (processTransaction bridge blockHash blockTime currentHeight now tx
      counter store bdb).2.1 = store ++ added := by
  have h := foldl_proj_extend (fun acc : Nat × Nat × List Inscription => acc.2.2)
    (fun acc input =>
      match input.transactionInWitness with
      | [] => acc
      | w =>
        match OrdinalsParser.parseInscription w with
        | none => acc
        | some env =>
          (acc.1 + 1, acc.2.1 + 1, InscriptionDatabase.save acc.2.2
            { id := tx.hash ++ "i" ++ toString acc.1
              contentType := env.contentType
              content := env.content
              blockHeight := currentHeight
              blockHash := blockHash
              txid := tx.hash
              vout := 0
              owner := firstOutputAddress tx
              timestamp := blockTime
              inscriptionNumber := acc.2.1 }))
    (by
      intro acc input
      rcases hwit : input.transactionInWitness with _ | ⟨w0, ws⟩
      · exact ⟨[], by simp [hwit]⟩
      · rcases hp : OrdinalsParser.parseInscription (w0 :: ws) with _ | env
        · exact ⟨[], by simp [hwit, hp]⟩
        · obtain ⟨added, ha⟩ := save_extend acc.2.2
            { id := tx.hash ++ "i" ++ toString acc.1
              contentType := env.contentType
              content := env.content
              blockHeight := currentHeight
              blockHash := blockHash
              txid := tx.hash
              vout := 0
              owner := firstOutputAddress tx
              timestamp := blockTime
              inscriptionNumber := acc.2.1 }
          exact ⟨added, by simp [hwit, hp, ha]⟩)
    tx.inputs (0, counter, store)
  exact h

/-- Applying a block only appends to the inscription store. -/
theorem applyBlock_store_extend (bridge : Option BridgeConfigModel) (now : Nat)
    (b : Block) (s : IndexerState) :
    ∃ added, (applyBlock bridge now b s).store = s.store ++ added := by
  have h := foldl_proj_extend (fun acc : Nat × List Inscription × List BurnClaim => acc.2.1)
    (fun acc tx =>
      processTransaction bridge b.hash b.time s.currentHeight now tx acc.1 acc.2.1 acc.2.2)
    (fun acc tx => processTransaction_store_extend bridge b.hash b.time
      s.currentHeight now tx acc.1 acc.2.1 acc.2.2)
    b.transactions (s.inscriptionCounter, s.store, s.bridgeDb)
  exact h

/-- C1.  When the fetched block's parent hash does not link to the
recorded tip, the step runs reorg handling: the flag is set, the height
and recorded tip are unchanged, and every surviving inscription is below
the reorged height.  If the block then fetched at the same height links
to the recorded tip, the next step takes the processing path (no second
reorg invocation), advances the height by one, records the new block
hash, and only appends to the inscription store. -/
theorem reorg_holds_height_then_processes (bridge : Option BridgeConfigModel)
    (now now2 : Nat) (b b2 : Block) (s : IndexerState)
    (hlast : ¬ s.lastBlockHash = "")
    (hmismatch : ¬ b.previousBlockHash = s.lastBlockHash) :
    (processNextBlock bridge now b s).2 = true ∧
    (processNextBlock bridge now b s).1.currentHeight = s.currentHeight ∧
    (processNextBlock bridge now b s).1.lastBlockHash = s.lastBlockHash ∧
    (∀ i ∈ (processNextBlock bridge now b s).1.store, i.blockHeight < s.currentHeight) ∧
    (b2.previousBlockHash = s.lastBlockHash →
      processNextBlock bridge now2 b2 (processNextBlock bridge now b s).1 =
        (applyBlock bridge now2 b2 (processNextBlock bridge now b s).1, false) ∧
      (applyBlock bridge now2 b2 (processNextBlock bridge now b s).1).currentHeight =
        s.currentHeight + 1 ∧
      (applyBlock bridge now2 b2 (processNextBlock bridge now b s).1).lastBlockHash =
        b2.hash ∧
      ∃ added, (applyBlock bridge now2 b2 (processNextBlock bridge now b s).1).store =
        (processNextBlock bridge now b s).1.store ++ added) := by
  have hcond : (¬ s.lastBlockHash = "" ∧ ¬ b.previousBlockHash = s.lastBlockHash) :=
    ⟨hlast, hmismatch⟩
  have hr : processNextBlock bridge now b s = (handleReorg bridge s s.currentHeight, true) := by
    simp [processNextBlock, hcond]
  refine ⟨by rw [hr], by rw [hr]; rfl, by rw [hr]; rfl, ?_, ?_⟩
  · intro i hi
    rw [hr] at hi
    simp only [handleReorg, InscriptionDatabase.deleteFromHeight] at hi
    simp only [List.mem_filter] at hi
    have := hi.2
    simp at this
    omega
  · intro hlink
    have hlast2 : (processNextBlock bridge now b s).1.lastBlockHash = s.lastBlockHash := by
      rw [hr]; rfl
    have hheight2 : (processNextBlock bridge now b s).1.currentHeight = s.currentHeight := by
      rw [hr]; rfl
    have hproc : processNextBlock bridge now2 b2 (processNextBlock bridge now b s).1 =
        (applyBlock bridge now2 b2 (processNextBlock bridge now b s).1, false) := by
      rw [processNextBlock]
      rw [if_neg]
      intro hcontra
      exact hcontra.2 (by rw [hlink, hlast2])
    refine ⟨hproc, ?_, ?_, ?_⟩
    · have hsucc : (applyBlock bridge now2 b2 (processNextBlock bridge now b s).1).currentHeight =
          (processNextBlock bridge now b s).1.currentHeight + 1 := rfl
      rw [hsucc, hheight2]
    · rfl
    · exact applyBlock_store_extend bridge now2 b2 _

/-- C1, witness: a one-block reorg at height 5 followed by the canonical
block; the reorg step holds the height at 5 and the next step processes
and advances to 6. -/
theorem reorg_holds_height_then_processes_witness :
    (processNextBlock none 0 (⟨"x", "y", 0, []⟩ : Block)
      (⟨5, "tip", 0, [], []⟩ : IndexerState)).2 = true ∧
    (processNextBlock none 0 (⟨"x", "y", 0, []⟩ : Block)
      (⟨5, "tip", 0, [], []⟩ : IndexerState)).1.currentHeight = 5 ∧
    (applyBlock none 0 (⟨"z", "tip", 0, []⟩ : Block)
      (processNextBlock none 0 (⟨"x", "y", 0, []⟩ : Block)
        (⟨5, "tip", 0, [], []⟩ : IndexerState)).1).currentHeight = 6 := by
  have h := reorg_holds_height_then_processes none 0 0
    (⟨"x", "y", 0, []⟩ : Block) (⟨"z", "tip", 0, []⟩ : Block)
    (⟨5, "tip", 0, [], []⟩ : IndexerState)
    (by decide) (by decide)
  exact ⟨h.1, h.2.1, (h.2.2.2.2 rfl).2.1⟩

/-- Transaction carrying one valid text envelope ("a"/"b") in its single
input's witness, used to exhibit the numbering gap. -/
def envTx (h : String) : Tx :=
  { hash := h
    inputs := [⟨[[0, 99, 3, 111, 114, 100, 1, 1, 1, 97, 0, 1, 98, 104]], "pp", 0⟩]
    outputs := [] }

/-- C4.  Re-processing a transaction whose inscription id already exists
(the crash-retry of a block) consumes an inscription number even though
the conflict-silent save inserts nothing: after saving tx "aa" (number
0), re-processing "aa" (conflict, no insert, counter still advances to
2), and processing tx "bb", the store holds two rows numbered 0 and 2 —
the second persisted inscription's number is 2, not the count (1) of
inscriptions persisted before it, so numbering is no longer dense. -/
theorem conflicting_save_consumes_number :
    ((processTransaction none "bh" 0 101 0 (envTx "bb")
        (processTransaction none "bh" 0 101 0 (envTx "aa")
          (processTransaction none "bh" 0 100 0 (envTx "aa") 0 [] []).1
          (processTransaction none "bh" 0 100 0 (envTx "aa") 0 [] []).2.1 []).1
        (processTransaction none "bh" 0 101 0 (envTx "aa")
          (processTransaction none "bh" 0 100 0 (envTx "aa") 0 [] []).1
          (processTransaction none "bh" 0 100 0 (envTx "aa") 0 [] []).2.1 []).2.1
        []).2.1).map (fun i => i.inscriptionNumber) = [0, 2] ∧
    ((processTransaction none "bh" 0 101 0 (envTx "bb")
        (processTransaction none "bh" 0 101 0 (envTx "aa")
          (processTransaction none "bh" 0 100 0 (envTx "aa") 0 [] []).1
          (processTransaction none "bh" 0 100 0 (envTx "aa") 0 [] []).2.1 []).1
        (processTransaction none "bh" 0 101 0 (envTx "aa")
          (processTransaction none "bh" 0 100 0 (envTx "aa") 0 [] []).1
          (processTransaction none "bh" 0 100 0 (envTx "aa") 0 [] []).2.1 []).2.1
        []).2.1).length = 2 := by
  have henv : OrdinalsParser.parseInscription
      [[0, 99, 3, 111, 114, 100, 1, 1, 1, 97, 0, 1, 98, 104]] =
      some ⟨[98], [97], none, none, none, none, none, none⟩ := by
    simp [OrdinalsParser.parseInscription, OrdinalsParser.extractEnvelope,
      OrdinalsParser.readPush, OrdinalsParser.collectPayloads,
      OrdinalsParser.parsePayloads, OrdinalsParser.parseFields, OrdinalsParser.applyTag]
  have h1 : processTransaction none "bh" 0 100 0 (envTx "aa") 0 [] [] =
      (1, [{ id := "aai0", contentType := [97], content := [98], blockHeight := 100,
             blockHash := "bh", txid := "aa", vout := 0, owner := "", timestamp := 0,
             inscriptionNumber := 0 }], []) := by
    simp [processTransaction, envTx, henv, InscriptionDatabase.save,
      firstOutputAddress]
    try decide
  rw [h1]
  have h2 : processTransaction none "bh" 0 101 0 (envTx "aa") 1
      [{ id := "aai0", contentType := [97], content := [98], blockHeight := 100,
         blockHash := "bh", txid := "aa", vout := 0, owner := "", timestamp := 0,
         inscriptionNumber := 0 }] [] =
      (2, [{ id := "aai0", contentType := [97], content := [98], blockHeight := 100,
             blockHash := "bh", txid := "aa", vout := 0, owner := "", timestamp := 0,
             inscriptionNumber := 0 }], []) := by
    simp [processTransaction, envTx, henv, InscriptionDatabase.save,
      firstOutputAddress]
    try decide
  rw [h2]
  have h3 : processTransaction none "bh" 0 101 0 (envTx "bb") 2
      [{ id := "aai0", contentType := [97], content := [98], blockHeight := 100,
         blockHash := "bh", txid := "aa", vout := 0, owner := "", timestamp := 0,
         inscriptionNumber := 0 }] [] =
      (3, [{ id := "aai0", contentType := [97], content := [98], blockHeight := 100,
             blockHash := "bh", txid := "aa", vout := 0, owner := "", timestamp := 0,
             inscriptionNumber := 0 },
           { id := "bbi0", contentType := [97], content := [98], blockHeight := 101,
             blockHash := "bh", txid := "bb", vout := 0, owner := "", timestamp := 0,
             inscriptionNumber := 2 }], []) := by
    simp [processTransaction, envTx, henv, InscriptionDatabase.save,
      firstOutputAddress]
    try decide
  rw [h3]
  decide

/-- Broadcast receipt of the contract transport (part_009: `receipt`
exposes `transactionId` and `newUTXOs`).  UTXOs are opaque tokens. -/
structure Receipt where
  transactionId : String
  newUTXOs : List Nat
deriving Repr, DecidableEq

/-- Transaction parameters built by `AttestationWorker.attestClaim`
(part_009 lines 189-197); key material and network are external and not
modelled, `utxos` is the field under test. -/
structure TxParams where
  maximumAllowedSatToSpend : Nat
  feeRate : Nat
  utxos : Option (List Nat)
deriving Repr, DecidableEq

/-- Arguments of the simulated `attestBurn` contract call.  The OPNet
address type is opaque. -/
structure SimCall where
  recipient : Nat
  inscriptionHash : Nat
  tokenId : Nat
deriving Repr, DecidableEq

/-- External collaborators of the worker: bech32 address conversion
(`none` = the library throws), the keccak-based inscription-id hash, the
contract simulation (`some msg` = revert), and the broadcast. -/
structure AwEnv where
  conv : String → Option Nat
  hashId : String → Nat
  simulate : SimCall → Option String
  send : SimCall → TxParams → Except String Receipt

/-- Observable outcome of one `attestClaim` run: the updated claims
table, the worker's pending-utxos field afterwards, whether the claim was
attested, and the simulation call, transaction parameters, and receipt
that occurred (when they did). -/
structure AttestResult where
  db : List BurnClaim
  pendingUtxos : Option (List Nat)
  success : Bool
  simCall : Option SimCall
  params : Option TxParams
  receipt : Option Receipt
deriving Repr, DecidableEq

/-- Embedding of `AttestationWorker.attestClaim` (part_009 lines
149-223): convert the claim's sender address (failure marks the claim
failed), simulate `attestBurn(recipient, hash, tokenId)` (revert marks it
failed), build parameters with `utxos := pendingUtxos` and the 100000-sat
cap, broadcast (failure marks it failed), then replace the
pending utxos with the receipt's new outputs and mark the claim
attested. -/
def attestClaim (env : AwEnv) (now : Nat) (db : List BurnClaim)
    (st : Option (List Nat)) (claim : BurnClaim) : AttestResult :=
  match env.conv claim.senderAddress with
  | none =>
    { db := BridgeService.markFailed now db claim.inscriptionId, pendingUtxos := st,
      success := false, simCall := none, params := none, receipt := none }
  | some recipient =>
    let call : SimCall := ⟨recipient, env.hashId claim.inscriptionId, claim.tokenId⟩
    match env.simulate call with
    | some _ =>
      { db := BridgeService.markFailed now db claim.inscriptionId, pendingUtxos := st,
        success := false, simCall := some call, params := none, receipt := none }
    | none =>
      let params : TxParams :=
        { maximumAllowedSatToSpend := 100000, feeRate := 0, utxos := st }
      match env.send call params with
      | .error _ =>
        { db := BridgeService.markFailed now db claim.inscriptionId, pendingUtxos := st,
          success := false, simCall := some call, params := some params, receipt := none }
      | .ok receipt =>
        { db := BridgeService.markAttested now db claim.inscriptionId receipt.transactionId,
          pendingUtxos := some receipt.newUTXOs, success := true,
          simCall := some call, params := some params, receipt := some receipt }

/-- Aggregate result of one worker cycle. -/
structure CycleResult where
  db : List BurnClaim
  pendingUtxos : Option (List Nat)
  attested : Nat
  trace : List AttestResult
deriving Repr, DecidableEq

/-- The `for (const claim of batch)` loop of
`AttestationWorker.processConfirmedClaims` (part_009 lines 103-113). -/
def cycleFold (env : AwEnv) (now : Nat) :
    List BurnClaim → List BurnClaim → Option (List Nat) → CycleResult
  | [], db, st => { db := db, pendingUtxos := st, attested := 0, trace := [] }
  | c :: rest, db, st =>
    let r := attestClaim env now db st c
    let tail := cycleFold env now rest r.db r.pendingUtxos
    { db := tail.db, pendingUtxos := tail.pendingUtxos,
      attested := (if r.success then 1 else 0) + tail.attested,
      trace := r :: tail.trace }

/-- Embedding of `AttestationWorker.processConfirmedClaims` (part_009
lines 85-116): take the first 20 confirmed claims and attest them in
order, starting from the worker's current pending-utxos field (the field
is not reset). -/
def processConfirmedClaims (env : AwEnv) (now : Nat) (db : List BurnClaim)
    (st : Option (List Nat)) : CycleResult :=
  cycleFold env now ((BridgeService.getClaimsReadyForAttestation db).take 20) db st

/-- Always-succeeding worker environment whose broadcasts yield txid "t1"
and one new output (UTXO 5). -/
def awEnvOk : AwEnv :=
  { conv := fun _ => some 7
    hashId := fun _ => 9
    simulate := fun _ => none
    send := fun _ _ => .ok { transactionId := "t1", newUTXOs := [5] } }

/-- Confirmed claim used in the worker scenarios. -/
def confClaim (id : String) (tok created : Nat) : BurnClaim :=
  { inscriptionId := id, collectionName := "c", tokenId := tok,
    senderAddress := "s", burnTxid := "t", burnBlockHeight := 0,
    burnBlockHash := "h", status := .confirmed, attestTxid := none,
    createdAt := created, updatedAt := created }

/-- C3 counterexample.  After a first cycle whose broadcast left new
outputs `[5]`, the worker's pending-utxos field is `some [5]` and the
first broadcast of the NEXT cycle is built with `utxos = [5]`: the field
is never reset to none at the start of a cycle, so a reset-per-cycle
policy (which would give the second cycle's first broadcast no utxos) is
refuted. -/
theorem pendingUtxos_persist_across_cycles :
    (processConfirmedClaims awEnvOk 10 [confClaim "x1" 1 0] none).pendingUtxos =
      some [5] ∧
    ((processConfirmedClaims awEnvOk 11 [confClaim "x2" 2 1]
        (processConfirmedClaims awEnvOk 10 [confClaim "x1" 1 0] none).pendingUtxos).trace.map
      (fun r => r.params)) =
      [some { maximumAllowedSatToSpend := 100000, feeRate := 0, utxos := some [5] }] := by
  decide

/-- Spec-side statement of the amended pending-utxos policy: along a
cycle's trace, every built transaction parameters carry
`utxos = pending_utxos` as it stood before that claim (the incoming value
for the first claim — no per-cycle reset), failures leave the field
unchanged, and a receipt replaces it with the receipt's new-outputs
list; the final field value continues into the next cycle. -/
def PendingChainOk : Option (List Nat) → List AttestResult → Option (List Nat) → Prop
  | st, [], final => final = st
  | st, r :: rest, final =>
    (∀ p, r.params = some p → p.utxos = st) ∧
    (r.success = false → r.pendingUtxos = st) ∧
    (∀ rec, r.receipt = some rec → r.pendingUtxos = some rec.newUTXOs) ∧
    PendingChainOk r.pendingUtxos rest final

/-- One attestation respects the pending-utxos policy. -/
theorem attestClaim_pending (env : AwEnv) (now : Nat) (db : List BurnClaim)
    (st : Option (List Nat)) (c : BurnClaim) :
    (∀ p, (attestClaim env now db st c).params = some p → p.utxos = st) ∧
    ((attestClaim env now db st c).success = false →
      (attestClaim env now db st c).pendingUtxos = st) ∧
    (∀ rec, (attestClaim env now db st c).receipt = some rec →
      (attestClaim env now db st c).pendingUtxos = some rec.newUTXOs) := by
  unfold attestClaim
  rcases hconv : env.conv c.senderAddress with _ | recipient
  · simp
  · rcases hsim : env.simulate ⟨recipient, env.hashId c.inscriptionId, c.tokenId⟩ with _ | msg
    · rcases hsend : env.send ⟨recipient, env.hashId c.inscriptionId, c.tokenId⟩
        { maximumAllowedSatToSpend := 100000, feeRate := 0, utxos := st } with err | rec
      · simp [hsim, hsend]
      · simp [hsim, hsend]
    · simp [hsim]

/-- The cycle loop respects the pending-utxos policy from any incoming
field value. -/
theorem cycleFold_pending (env : AwEnv) (now : Nat) :
    ∀ (batch db : List BurnClaim) (st : Option (List Nat)),
    PendingChainOk st (cycleFold env now batch db st).trace
      (cycleFold env now batch db st).pendingUtxos := by
  intro batch
  induction batch with
  | nil => intro db st; simp [cycleFold, PendingChainOk]
  | cons c rest ih =>
    intro db st
    show PendingChainOk st
      (attestClaim env now db st c ::
        (cycleFold env now rest (attestClaim env now db st c).db
          (attestClaim env now db st c).pendingUtxos).trace) _
    rw [PendingChainOk]
    obtain ⟨h1, h2, h3⟩ := attestClaim_pending env now db st c
    exact ⟨h1, h2, h3, ih _ _⟩

/-- C3 amended.  A worker cycle's observable behaviour obeys the amended
pending-utxos policy: the field persists into the cycle (no reset), every
built transaction parameters carry the field's current value as `utxos`,
failures leave it unchanged, and each receipt replaces it with the
receipt's new-outputs list, the final value carrying over to the next
cycle. -/
theorem worker_pending_utxos_policy (env : AwEnv) (now : Nat) (db : List BurnClaim)
    (st : Option (List Nat)) :
    PendingChainOk st (processConfirmedClaims env now db st).trace
      (processConfirmedClaims env now db st).pendingUtxos :=
  cycleFold_pending env now _ db st

/-- A row with a different id survives a status update unchanged. -/
theorem updateStatus_mem_of_ne (db : List BurnClaim) (now : Nat) (id : String)
    (stt : BurnClaimStatus) (atx : Option String) (d : BurnClaim)
    (hd : d ∈ db) (hne : ¬ d.inscriptionId = id) :
    d ∈ BridgeDatabase.updateStatus db now id stt atx := by
  unfold BridgeDatabase.updateStatus
  refine List.mem_map.mpr ⟨d, hd, ?_⟩
  simp [hne]

/-- C5.  Every simulation is `attestBurn(recipient, hash(id), tokenId)`
with the recipient obtained by converting the claim's sender address;
conversion failure both skips the simulation and (like a simulation
revert or a broadcast failure) marks exactly that claim failed; a success
marks it attested with the receipt's txid; rows with other ids are
untouched; and the cycle's trace covers the whole batch — no claim's
failure stops the cycle. -/
theorem attestClaim_failure_isolation (env : AwEnv) (now : Nat) :
    (∀ (db : List BurnClaim) (st : Option (List Nat)) (c : BurnClaim),
       (∀ call, (attestClaim env now db st c).simCall = some call →
          env.conv c.senderAddress = some call.recipient ∧
          call.inscriptionHash = env.hashId c.inscriptionId ∧
          call.tokenId = c.tokenId) ∧
       (env.conv c.senderAddress = none →
          (attestClaim env now db st c).simCall = none ∧
          (attestClaim env now db st c).success = false) ∧
       ((attestClaim env now db st c).success = false →
          (attestClaim env now db st c).db =
            BridgeService.markFailed now db c.inscriptionId) ∧
       ((attestClaim env now db st c).success = true →
          ∃ rec, (attestClaim env now db st c).receipt = some rec ∧
            (attestClaim env now db st c).db =
              BridgeService.markAttested now db c.inscriptionId rec.transactionId) ∧
       (∀ d ∈ db, ¬ d.inscriptionId = c.inscriptionId →
          d ∈ (attestClaim env now db st c).db)) ∧
    (∀ (batch db : List BurnClaim) (st : Option (List Nat)),
       (cycleFold env now batch db st).trace.length = batch.length) := by
  constructor
  · intro db st c
    unfold attestClaim
    rcases hconv : env.conv c.senderAddress with _ | recipient
    · refine ⟨by simp, by simp, by simp, by simp, ?_⟩
      intro d hd hne
      exact updateStatus_mem_of_ne db now c.inscriptionId .failed none d hd hne
    · rcases hsim : env.simulate ⟨recipient, env.hashId c.inscriptionId, c.tokenId⟩ with _ | msg
      · rcases hsend : env.send ⟨recipient, env.hashId c.inscriptionId, c.tokenId⟩
          { maximumAllowedSatToSpend := 100000, feeRate := 0, utxos := st } with err | rec
        · refine ⟨?_, by simp [hconv], by simp [hsim, hsend], by simp [hsim, hsend], ?_⟩
          · rintro call hcall
            simp [hsim, hsend] at hcall
            subst hcall
            exact ⟨rfl, rfl, rfl⟩
          · intro d hd hne
            simp only [hsim, hsend]
            exact updateStatus_mem_of_ne db now c.inscriptionId .failed none d hd hne
        · refine ⟨?_, by simp [hconv], by simp [hsim, hsend], ?_, ?_⟩
          · rintro call hcall
            simp [hsim, hsend] at hcall
            subst hcall
            exact ⟨rfl, rfl, rfl⟩
          · intro _
            refine ⟨rec, by simp [hsim, hsend], by simp [hsim, hsend]⟩
          · intro d hd hne
            simp only [hsim, hsend]
            exact updateStatus_mem_of_ne db now c.inscriptionId .attested
              (some rec.transactionId) d hd hne
      · refine ⟨?_, by simp [hconv], by simp [hsim], by simp [hsim], ?_⟩
        · rintro call hcall
          simp [hsim] at hcall
          subst hcall
          exact ⟨rfl, rfl, rfl⟩
        · intro d hd hne
          simp only [hsim]
          exact updateStatus_mem_of_ne db now c.inscriptionId .failed none d hd hne
  · intro batch
    induction batch with
    | nil => intro db st; rfl
    | cons c rest ih =>
      intro db st
      show ((attestClaim env now db st c) ::
        (cycleFold env now rest (attestClaim env now db st c).db
          (attestClaim env now db st c).pendingUtxos).trace).length = rest.length + 1
      simp [ih]

/-- C5, witness: with a conversion that always fails, attesting a claim
simulates nothing, marks that claim failed, and the cycle still visits
its whole one-element batch. -/
theorem attestClaim_failure_isolation_witness :
    ((attestClaim ⟨fun _ => none, fun _ => 9, fun _ => none,
        fun _ _ => .error "e"⟩ 10 [confClaim "x1" 1 0] none (confClaim "x1" 1 0)).db =
      BridgeService.markFailed 10 [confClaim "x1" 1 0] "x1") ∧
    (cycleFold (⟨fun _ => none, fun _ => 9, fun _ => none,
        fun _ _ => .error "e"⟩ : AwEnv) 10 [confClaim "x1" 1 0]
      [confClaim "x1" 1 0] none).trace.length = 1 := by
  constructor
  · have h := ((attestClaim_failure_isolation ⟨fun _ => none, fun _ => 9, fun _ => none,
        fun _ _ => .error "e"⟩ 10).1 [confClaim "x1" 1 0] none (confClaim "x1" 1 0)).2.2.1
    have hid : (confClaim "x1" 1 0).inscriptionId = "x1" := rfl
    rw [hid] at h
    exact h (by decide)
  · exact (attestClaim_failure_isolation ⟨fun _ => none, fun _ => 9, fun _ => none,
      fun _ _ => .error "e"⟩ 10).2 [confClaim "x1" 1 0] [confClaim "x1" 1 0] none

end OrdinalsPlugin
